import Mathlib

/-!
Verification of the streaming CSV parser (chunk line splitter, line field
tokenizer, row assembler/driver, and the AI post-processing step).

Buffers and decoded text are both modelled as lists of byte values
(`List Nat`): every structural character (quote, comma, LF, CR) is a single
ASCII byte, and the tokenizer treats all other characters uniformly by
appending them, so byte-level modelling is faithful. Records are modelled as
association lists in insertion order, mirroring JS objects with string keys.
-/

namespace Csv

/-- Byte value of the double-quote character. -/
def QUOTE : Nat := 34

/-- Byte value of the comma delimiter. -/
def COMMA : Nat := 44

/-- Byte value of the line-feed character. -/
def LF : Nat := 10

/-- Byte value of the carriage-return character. -/
def CR : Nat := 13

/-- A record row: association list from header name (bytes) to field value
(bytes), in insertion order, mirroring a JS object with string keys. -/
abbrev Row := List (List Nat × List Nat)

/-- Loop of `parseCsvLine`: walks the characters of the line carrying the
`inQuotes` flag, the list of completed values and the current accumulator.
A quote toggles the flag and is dropped; a comma outside quotes closes the
current field; any other character is appended to the current field.
At end of line the final accumulator is pushed. -/
def parseCsvLineGo : List Nat → Bool → List (List Nat) → List Nat → List (List Nat)
  | [], _, values, current => values ++ [current]
  | c :: rest, inQuotes, values, current =>
    if c = QUOTE then parseCsvLineGo rest (!inQuotes) values current
    else if c = COMMA ∧ inQuotes = false then
      parseCsvLineGo rest inQuotes (values ++ [current]) []
    else parseCsvLineGo rest inQuotes values (current ++ [c])

/-- The line field tokenizer `parseCsvLine`. -/
def parseCsvLine (line : List Nat) : List (List Nat) :=
  parseCsvLineGo line false [] []

/-- Scanner state of `splitLinesFromBuffer`: the lines collected so far, the
start offset of the current line, the position of the last line feed that was
recognised as a terminator (`none` for the JS sentinel `-1`), and the
in-quote flag. -/
structure SplitState where
  lines : List (List Nat)
  lineStart : Nat
  lastNewLinePos : Option Nat
  inQuotes : Bool
deriving DecidableEq

/-- Scan loop of `splitLinesFromBuffer`. `buffer` is the whole buffer (used
for absolute-position slicing and the carriage-return look-back), `rest` is
the not-yet-scanned suffix (`buffer.drop i`), and `i` the current absolute
position. A quote byte toggles the flag and, when immediately followed by a
second quote byte, skips it. A line-feed byte outside quotes records a line
spanning from the current line start up to the line feed, excluding an
immediately preceding carriage return. -/
def splitGo (buffer : List Nat) : List Nat → Nat → SplitState → SplitState
  | [], _, st => st
  | b :: rest, i, st =>
    if b = QUOTE then
      match rest with
      | b2 :: rest2 =>
        if b2 = QUOTE then
          splitGo buffer rest2 (i + 2) { st with inQuotes := !st.inQuotes }
        else
          splitGo buffer (b2 :: rest2) (i + 1) { st with inQuotes := !st.inQuotes }
      | [] => { st with inQuotes := !st.inQuotes }
    else if b = LF ∧ st.inQuotes = false then
      splitGo buffer rest (i + 1)
        { lines := st.lines ++
            [(buffer.take (if 0 < i ∧ buffer.get? (i - 1) = some CR then i - 1 else i)).drop
              st.lineStart],
          lineStart := i + 1, lastNewLinePos := some i, inQuotes := st.inQuotes }
    else splitGo buffer rest (i + 1) st

/-- Full scan of a buffer from position 0 with fresh state. -/
def splitScan (buffer : List Nat) : SplitState :=
  splitGo buffer buffer 0 ⟨[], 0, none, false⟩

/-- The chunk line splitter `splitLinesFromBuffer`: returns the complete
lines found in the buffer and the remainder. When no terminator was found,
the flag ended false and the buffer is non-empty, the whole buffer is
returned as one line with an empty remainder; otherwise the remainder is the
suffix after the last recognised terminator (or from the current line start
when none was found). -/
def splitLinesFromBuffer (buffer : List Nat) : List (List Nat) × List Nat :=
  if (splitScan buffer).lastNewLinePos = none ∧ (splitScan buffer).inQuotes = false ∧
      0 < buffer.length then
    ((splitScan buffer).lines ++ [buffer], [])
  else
    ((splitScan buffer).lines,
      match (splitScan buffer).lastNewLinePos with
      | some p => buffer.drop (p + 1)
      | none => buffer.drop (splitScan buffer).lineStart)

/-- Offset of the current line start implied by the last recognised
terminator: one past it, or 0 when none was found. -/
def lsOf (st : SplitState) : Nat :=
  match st.lastNewLinePos with
  | some p => p + 1
  | none => 0

/-- Scan invariant of `splitGo`: the line-start offset always equals one past
the last recognised terminator (0 when none was found), and no line has been
emitted while no terminator was found. -/
def SplitInv (st : SplitState) : Prop :=
  st.lineStart = lsOf st ∧ (st.lastNewLinePos = none → st.lines = [])

/-- JS object assignment `row[k] = v`: updates the value in place when the
key exists (keeping its position) and appends the pair otherwise. -/
def recSet (row : Row) (k v : List Nat) : Row :=
  match row with
  | [] => [(k, v)]
  | (k2, v2) :: rest => if k2 = k then (k, v) :: rest else (k2, v2) :: recSet rest k v

/-- Loop of the record builder in `processBlockOfLines`: for each header at
index `idx`, assigns `row[header] = values[idx]` when the index is within
the values list. -/
def buildRowGo (values : List (List Nat)) : List (List Nat) → Nat → Row → Row
  | [], _, row => row
  | h :: hs, idx, row =>
    match values.get? idx with
    | some v => buildRowGo values hs (idx + 1) (recSet row h v)
    | none => buildRowGo values hs (idx + 1) row

/-- The record builder of `processBlockOfLines`: zips a header list against
a value list into a JS-object-like row. -/
def buildRow (headers values : List (List Nat)) : Row :=
  buildRowGo values headers 0 []

/-- The block processor `processBlockOfLines`: tokenizes each line and builds
a row from the headers; when the header list is empty no rows are produced
(the source logs an error instead). -/
def processBlockOfLines (lines : List (List Nat)) (headers : List (List Nat)) : List Row :=
  if 0 < headers.length then lines.map (fun l => buildRow headers (parseCsvLine l)) else []

/-- Driver state of `parseAndLogCsv` between chunk iterations. -/
structure DriverState where
  headers : List (List Nat)
  isFirstChunk : Bool
  remainder : List Nat
  records : List Row
deriving DecidableEq

/-- Initial driver state. -/
def initDriver : DriverState := ⟨[], true, [], []⟩

/-- One iteration of the driver loop of `parseAndLogCsv`: concatenates the
carried remainder with the new chunk, splits it into lines, takes the first
line of the stream as the header, and processes the remaining lines into
records. -/
def driverStep (st : DriverState) (chunk : List Nat) : DriverState :=
  let res := splitLinesFromBuffer (st.remainder ++ chunk)
  match res.1, st.isFirstChunk with
  | l0 :: rest, true =>
    let hs := parseCsvLine l0
    { headers := hs, isFirstChunk := false, remainder := res.2,
      records := st.records ++ processBlockOfLines rest hs }
  | lines, _ =>
    { st with
        remainder := res.2
        records := st.records ++ processBlockOfLines lines st.headers }

/-- End-of-stream step of `parseAndLogCsv`: when the carried remainder is
non-empty, split it once more and process the resulting lines. -/
def driverEnd (st : DriverState) : DriverState :=
  if 0 < st.remainder.length then
    { st with
      records := st.records ++ processBlockOfLines (splitLinesFromBuffer st.remainder).1 st.headers }
  else st

/-- The whole driver `parseAndLogCsv`, run over an ordered list of byte
chunks. -/
def parseAndLogCsv (chunks : List (List Nat)) : DriverState :=
  driverEnd (chunks.foldl driverStep initDriver)

/-- Key `address` as bytes, the field unconditionally deleted by
`postProcessRows`. -/
def addressKey : List Nat := [97, 100, 100, 114, 101, 115, 115]

/-- JS `delete row.address` generalised: removes the pair with the given key. -/
def recDelete (row : Row) (k : List Nat) : Row :=
  row.filter (fun p => ¬ p.1 = k)

/-- JS object spread `\x7b ...base, ...extra \x7d`: every pair of `extra` is
assigned into `base` in order. -/
def recMerge (base extra : Row) : Row :=
  extra.foldl (fun r p => recSet r p.1 p.2) base

/-- Per-row step of `postProcessRows`: delete the `address` field, then
spread the address-cleaning response and then the phone-cleaning response
(each `none` layer means index out of range, each inner `none` a consumer
failure, in which case the spread is a no-op). -/
def postOne (row : Row) (phoneR addrR : Option (Option Row)) : Row :=
  let r1 := recDelete row addressKey
  let r2 :=
    match addrR with
    | some (some d) => recMerge r1 d
    | _ => r1
  match phoneR with
  | some (some d) => recMerge r2 d
  | _ => r2

/-- Indexed loop of `postProcessRows`. -/
def postGo (pr ar : List (Option Row)) : List Row → Nat → List Row
  | [], _ => []
  | row :: rest, i => postOne row (pr.get? i) (ar.get? i) :: postGo pr ar rest (i + 1)

/-- The AI post-processing step `postProcessRows`, with the row-consumer
responses passed in as oracles: `pr` are the phone-cleaning responses and
`ar` the address-cleaning responses, one per row, `none` marking a failure. -/
def postProcessRows (rows : List Row) (pr ar : List (Option Row)) : List Row :=
  postGo pr ar rows 0

/-- Helper: the scan loop preserves `SplitInv`. -/
lemma splitGo_inv (buffer : List Nat) (rest : List Nat) (i : Nat) (st : SplitState) :
    SplitInv st → SplitInv (splitGo buffer rest i st) := by
  induction rest, i, st using splitGo.induct buffer with
  | case1 i st =>
    intro h
    simpa [splitGo] using h
  | case2 i st rest2 ih =>
    intro h
    simp only [splitGo]
    exact ih h
  | case3 i st b2 rest2 hb2 ih =>
    intro h
    simp only [splitGo]
    simp only [if_pos rfl, if_neg hb2]
    exact ih h
  | case4 i st =>
    intro h
    simp only [splitGo]
    exact h
  | case5 b rest i st hb hcond ih =>
    intro h
    rw [splitGo.eq_def]
    dsimp only
    rw [if_neg hb, if_pos hcond]
    exact ih ⟨rfl, fun hx => Option.noConfusion hx⟩
  | case6 b rest i st hb hcond ih =>
    intro h
    rw [splitGo.eq_def]
    dsimp only
    rw [if_neg hb, if_neg hcond]
    exact ih h

/-- Helper: the full scan of any buffer satisfies `SplitInv`. -/
lemma splitScan_inv (buffer : List Nat) : SplitInv (splitScan buffer) :=
  splitGo_inv buffer buffer 0 ⟨[], 0, none, false⟩ ⟨rfl, fun _ => rfl⟩

/-- Claim C5: for every non-empty buffer B given to the splitter, if the scan
found no line terminator and the in-quote flag is false at the end of B, the
whole buffer is returned as one complete line with an empty remainder; in
every other case the bytes from the last recognized line start to the end of
B are returned as the remainder, whether or not the flag is open at the end
of the scan. -/
theorem splitter_end_of_buffer_cases (B : List Nat) (hB : B ≠ []) :
    ((splitScan B).lastNewLinePos = none ∧ (splitScan B).inQuotes = false →
      splitLinesFromBuffer B = ((splitScan B).lines ++ [B], [])) ∧
    (¬ ((splitScan B).lastNewLinePos = none ∧ (splitScan B).inQuotes = false) →
      splitLinesFromBuffer B = ((splitScan B).lines, B.drop (splitScan B).lineStart)) := by
  have hlen : 0 < B.length := List.length_pos.mpr hB
  have hinv := splitScan_inv B
  constructor
  · intro h
    rw [splitLinesFromBuffer, if_pos ⟨h.1, h.2, hlen⟩]
  · intro h
    rw [splitLinesFromBuffer, if_neg (fun hc => h ⟨hc.1, hc.2.1⟩)]
    cases hnl : (splitScan B).lastNewLinePos with
    | some p =>
      have hls : (splitScan B).lineStart = p + 1 := by
        have h1 := hinv.1
        rw [lsOf, hnl] at h1
        exact h1
      simp only [hnl, hls]
    | none =>
      simp only [hnl]

/-- Witness for C5 at a concrete buffer with an open quote at end of scan. -/
theorem splitter_end_of_buffer_cases_witness :
    splitLinesFromBuffer [34, 98] = ([], [34, 98]) :=
  ((splitter_end_of_buffer_cases [34, 98] (by decide)).2 (by decide)).trans (by decide)

/-- Claim C8: a line-feed byte scanned while the in-quote flag is false
always terminates the line, whether the terminator is a bare line feed or a
carriage-return-line-feed pair; the emitted line spans from the current line
start up to the line feed, excluding an immediately preceding carriage
return, so the terminator bytes are not part of the line text. -/
theorem lf_outside_quotes_terminates_line (buffer rest : List Nat) (i : Nat)
    (st : SplitState) (hq : st.inQuotes = false) :
    (0 < i ∧ buffer.get? (i - 1) = some CR →
      splitGo buffer (LF :: rest) i st
        = splitGo buffer rest (i + 1)
            ⟨st.lines ++ [(buffer.take (i - 1)).drop st.lineStart], i + 1, some i, false⟩) ∧
    (¬ (0 < i ∧ buffer.get? (i - 1) = some CR) →
      splitGo buffer (LF :: rest) i st
        = splitGo buffer rest (i + 1)
            ⟨st.lines ++ [(buffer.take i).drop st.lineStart], i + 1, some i, false⟩) := by
  have hlf : ¬ (LF = QUOTE) := by decide
  constructor
  · intro h
    rw [splitGo.eq_def]
    dsimp only
    rw [if_neg hlf, if_pos ⟨rfl, hq⟩, if_pos h, hq]
  · intro h
    rw [splitGo.eq_def]
    dsimp only
    rw [if_neg hlf, if_pos ⟨rfl, hq⟩, if_neg h, hq]

/-- Witness for C8 at a concrete carriage-return-line-feed terminator. -/
theorem lf_outside_quotes_terminates_line_witness :
    splitGo [97, 13, 10] [10] 2 ⟨[], 0, none, false⟩
      = splitGo [97, 13, 10] [] 3 ⟨[[97]], 3, some 2, false⟩ := by
  have h := (lf_outside_quotes_terminates_line [97, 13, 10] [] 2 ⟨[], 0, none, false⟩ rfl).1
    (by decide)
  exact h.trans (by decide)

/-- Helper: the tokenizer loop never lets a quote byte into any output
field, given that the accumulated state is quote-free. -/
lemma parseCsvLineGo_no_quote :
    ∀ (line : List Nat) (inQ : Bool) (values : List (List Nat)) (current : List Nat),
      (∀ f ∈ values, ¬ QUOTE ∈ f) → ¬ QUOTE ∈ current →
      ∀ f ∈ parseCsvLineGo line inQ values current, ¬ QUOTE ∈ f := by
  intro line
  induction line with
  | nil =>
    intro inQ values current hv hc f hf
    simp only [parseCsvLineGo] at hf
    rcases List.mem_append.mp hf with h | h
    · exact hv f h
    · rw [List.mem_singleton.mp h]
      exact hc
  | cons c rest ih =>
    intro inQ values current hv hc f hf
    simp only [parseCsvLineGo] at hf
    by_cases hqc : c = QUOTE
    · rw [if_pos hqc] at hf
      exact ih _ _ _ hv hc f hf
    · rw [if_neg hqc] at hf
      by_cases hcm : c = COMMA ∧ inQ = false
      · rw [if_pos hcm] at hf
        refine ih _ _ _ ?_ ?_ f hf
        · intro g hg
          rcases List.mem_append.mp hg with h | h
          · exact hv g h
          · rw [List.mem_singleton.mp h]
            exact hc
        · simp
      · rw [if_neg hcm] at hf
        refine ih _ _ _ hv ?_ f hf
        intro hmem
        rcases List.mem_append.mp hmem with h | h
        · exact hc h
        · exact hqc (List.mem_singleton.mp h).symm

/-- Claim C9: every quote character of a logical line only toggles the
tokenizer's in-quote flag and is never appended, so no output field value
ever contains a quote character (hence a doubled quote pair contributes no
literal quote to the field's value). -/
theorem fields_never_contain_quote (line : List Nat) :
    ∀ f ∈ parseCsvLine line, ¬ QUOTE ∈ f := by
  intro f hf
  exact parseCsvLineGo_no_quote line false [] [] (by simp) (by simp) f hf

/-- Witness for C9 on a quoted field and a doubled-quote pair. -/
theorem fields_never_contain_quote_witness :
    ¬ QUOTE ∈ ([97, 98] : List Nat) :=
  fields_never_contain_quote [34, 97, 34, 34, 98, 34] [97, 98] (by decide)

/-- Claim C10: a buffer whose scan recognised its final byte as a line
terminator yields an empty remainder, and the driver's end-of-stream step
processes the carried remainder only when it is non-empty, so an input ending
in a line feed produces no extra empty trailing record. -/
theorem trailing_terminator_no_extra_record :
    (∀ B : List Nat, (splitScan B).lastNewLinePos = some (B.length - 1) →
      (splitLinesFromBuffer B).2 = []) ∧
    (∀ st : DriverState, st.remainder = [] → driverEnd st = st) := by
  constructor
  · intro B h
    cases B with
    | nil => exact absurd h (by decide)
    | cons b bs =>
      rw [splitLinesFromBuffer,
        if_neg (fun hc => by rw [h] at hc; exact Option.noConfusion hc.1)]
      simp only [h, List.length_cons, Nat.add_sub_cancel]
      exact List.drop_length (b :: bs)
  · intro st h
    rw [driverEnd, h]
    simp

/-- Witness for C10: a buffer ending in a line feed and an empty-remainder
driver state. -/
theorem trailing_terminator_no_extra_record_witness :
    (splitLinesFromBuffer [97, 10]).2 = []
      ∧ driverEnd ⟨[[97]], false, [], []⟩ = ⟨[[97]], false, [], []⟩ :=
  ⟨trailing_terminator_no_extra_record.1 [97, 10] (by decide),
    trailing_terminator_no_extra_record.2 ⟨[[97]], false, [], []⟩ rfl⟩

/-- Helper: assigning a fresh key appends the pair at the end of the row. -/
lemma recSet_append (row : Row) (k v : List Nat) (hk : ∀ p ∈ row, ¬ p.1 = k) :
    recSet row k v = row ++ [(k, v)] := by
  induction row with
  | nil => rfl
  | cons p rest ih =>
    obtain ⟨k2, v2⟩ := p
    have h1 : ¬ k2 = k := hk (k2, v2) (List.mem_cons_self _ _)
    simp only [recSet, if_neg h1, List.cons_append, List.cons.injEq, true_and]
    exact ih (fun q hq => hk q (List.mem_cons_of_mem _ hq))

/-- Helper: with pairwise-distinct headers disjoint from the accumulated row,
the record-builder loop appends exactly the zip of the remaining headers with
the remaining values. -/
lemma buildRowGo_zip (values : List (List Nat)) :
    ∀ (H : List (List Nat)) (idx : Nat) (row : Row), H.Nodup →
      (∀ p ∈ row, ¬ p.1 ∈ H) →
      buildRowGo values H idx row = row ++ H.zip (values.drop idx) := by
  intro H
  induction H with
  | nil =>
    intro idx row _ _
    simp [buildRowGo]
  | cons h hs ih =>
    intro idx row hnd hdisj
    rw [List.nodup_cons] at hnd
    cases hv : values.get? idx with
    | some v =>
      have hv2 : values[idx]? = some v := by rw [← List.get?_eq_getElem?]; exact hv
      obtain ⟨hlen, hgetE⟩ := List.getElem?_eq_some.mp hv2
      have hdrop : values.drop idx = v :: values.drop (idx + 1) := by
        rw [List.drop_eq_getElem_cons hlen, hgetE]
      simp only [buildRowGo, hv]
      rw [recSet_append row h v
        (fun p hp he => hdisj p hp (by rw [he]; exact List.mem_cons_self _ _))]
      rw [ih (idx + 1) (row ++ [(h, v)]) hnd.2 ?_]
      · rw [hdrop, List.zip_cons_cons, List.append_assoc, List.singleton_append]
      · intro p hp
        rcases List.mem_append.mp hp with h1 | h1
        · exact fun hm => hdisj p h1 (List.mem_cons_of_mem _ hm)
        · rw [List.mem_singleton.mp h1]
          exact hnd.1
    | none =>
      have hge : values.length ≤ idx := by
        by_contra hlt
        push_neg at hlt
        rw [List.get?_eq_get hlt] at hv
        exact Option.noConfusion hv
      have hd1 : values.drop idx = [] := List.drop_eq_nil_of_le hge
      have hd2 : values.drop (idx + 1) = [] :=
        List.drop_eq_nil_of_le (le_trans hge (Nat.le_succ idx))
      simp only [buildRowGo, hv]
      rw [ih (idx + 1) row hnd.2 (fun p hp hm => hdisj p hp (List.mem_cons_of_mem _ hm))]
      rw [hd1, hd2]
      simp

/-- Claim C6 counterexample: with duplicate header names the built record
does not contain the pair (H[i], F[i]) for every i below the minimum of the
two lengths — the later assignment overwrites the earlier one. -/
theorem duplicate_headers_break_pairing :
    buildRow [[97], [97]] [[120], [121]] = [([97], [121])] ∧
    ¬ buildRow [[97], [97]] [[120], [121]] = [([97], [120]), ([97], [121])] := by decide

/-- Claim C6 amended: provided the header names are pairwise distinct, the
record built for a data line contains exactly the pairs (H[i], F[i]) for
i below the minimum of the two lengths, in header order: extra fields are
dropped and missing trailing header keys are absent. -/
theorem record_pairs_header_fields (H F : List (List Nat)) (hnd : H.Nodup) :
    buildRow H F = H.zip F := by
  rw [buildRow, buildRowGo_zip F H 0 [] hnd (by simp)]
  simp

/-- Witness for the amended C6 at concrete distinct headers with an extra
field. -/
theorem record_pairs_header_fields_witness :
    buildRow [[104], [105]] [[49], [50], [51]] = [([104], [49]), ([105], [50])] :=
  (record_pairs_header_fields [[104], [105]] [[49], [50], [51]] (by decide)).trans (by decide)

/-- Helper: the post-processing loop preserves the number of rows. -/
lemma postGo_length (pr ar : List (Option Row)) :
    ∀ (rows : List Row) (j : Nat), (postGo pr ar rows j).length = rows.length := by
  intro rows
  induction rows with
  | nil => intro j; rfl
  | cons row rest ih =>
    intro j
    simp [postGo, ih (j + 1)]

/-- Helper: the k-th output of the post-processing loop started at offset j
is the per-row step applied to the k-th row with the responses at j + k. -/
lemma postGo_get (pr ar : List (Option Row)) :
    ∀ (rows : List Row) (j k : Nat),
      (postGo pr ar rows j).get? k
        = (rows.get? k).map (fun row => postOne row (pr.get? (j + k)) (ar.get? (j + k))) := by
  intro rows
  induction rows with
  | nil =>
    intro j k
    simp [postGo]
  | cons row rest ih =>
    intro j k
    cases k with
    | zero => simp [postGo]
    | succ k =>
      have e : j + 1 + k = j + (k + 1) := by omega
      simp only [postGo, List.get?_cons_succ]
      rw [ih (j + 1) k, e]

/-- Claim C7 counterexample: a record whose phone and address cleaning both
fail is handed onward without its original `address` field, so not all
original field values are preserved. -/
theorem consumer_failure_loses_address :
    postProcessRows [[([110], [118]), (addressKey, [97])]] [none] [none]
      = [[([110], [118])]] ∧
    ¬ (addressKey, [97]) ∈ ([([110], [118])] : Row) := by decide

/-- Claim C7 amended: a record for which both consumer calls fail is neither
dropped nor retried and is handed onward with every field except `address`
unchanged; the original `address` field is deleted unconditionally, so its
value is lost when the address cleaning fails. -/
theorem consumer_failure_keeps_other_fields (rows : List Row) (pr ar : List (Option Row))
    (i : Nat) (row : Row) (hr : rows.get? i = some row) (hp : pr.get? i = some none)
    (ha : ar.get? i = some none) :
    (postProcessRows rows pr ar).length = rows.length ∧
    (postProcessRows rows pr ar).get? i = some (recDelete row addressKey) ∧
    ∀ k v, ¬ k = addressKey → (k, v) ∈ row → (k, v) ∈ recDelete row addressKey := by
  refine ⟨postGo_length pr ar rows 0, ?_, ?_⟩
  · rw [postProcessRows, postGo_get pr ar rows 0 i, hr]
    simp only [Nat.zero_add]
    rw [hp, ha]
    rfl
  · intro k v hk hm
    refine List.mem_filter.mpr ⟨hm, ?_⟩
    simp [hk]

/-- Witness for the amended C7 at a concrete two-field record with both
consumer responses failing. -/
theorem consumer_failure_keeps_other_fields_witness :
    (postProcessRows [[([110], [118]), (addressKey, [97])]] [none] [none]).get? 0
      = some (recDelete [([110], [118]), (addressKey, [97])] addressKey) :=
  (consumer_failure_keeps_other_fields [[([110], [118]), (addressKey, [97])]] [none] [none] 0
    [([110], [118]), (addressKey, [97])] (by decide) (by decide) (by decide)).2.1

/-- Claim C3 counterexample: on the stream "a\n(quote)b" the driver reaches
end of stream with the non-empty remainder (quote)b whose scan flag is still
open, and the end-of-stream pass emits no line at all — the remaining bytes
are silently discarded rather than processed as a final row. -/
theorem unterminated_quote_remainder_dropped :
    (List.foldl driverStep initDriver [[97, 10, 34, 98]]).remainder = [34, 98] ∧
    (splitScan [34, 98]).inQuotes = true ∧
    (parseAndLogCsv [[97, 10, 34, 98]]).records = [] := by decide

/-- Claim C3 amended: when the byte source is exhausted while the carried
remainder still scans to an open quote (and contains no unquoted
terminator), the remaining bytes are not emitted as a final line: the
end-of-stream step produces no record and the bytes are discarded without
a failure. -/
theorem unterminated_quote_discards_remainder (st : DriverState)
    (h1 : (splitScan st.remainder).lastNewLinePos = none)
    (h2 : (splitScan st.remainder).inQuotes = true) :
    (driverEnd st).records = st.records := by
  rw [driverEnd]
  by_cases hrem : 0 < st.remainder.length
  · rw [if_pos hrem]
    have hcond : ¬ ((splitScan st.remainder).lastNewLinePos = none ∧
        (splitScan st.remainder).inQuotes = false ∧ 0 < st.remainder.length) := by
      intro hc
      rw [h2] at hc
      exact Bool.noConfusion hc.2.1
    have hlines : (splitLinesFromBuffer st.remainder).1 = [] := by
      rw [splitLinesFromBuffer, if_neg hcond]
      exact (splitScan_inv st.remainder).2 h1
    rw [hlines]
    simp [processBlockOfLines]
  · rw [if_neg hrem]

/-- Witness for the amended C3 at a concrete driver state carrying an
open-quote remainder. -/
theorem unterminated_quote_discards_remainder_witness :
    (driverEnd ⟨[[97]], false, [34, 98], []⟩).records = [] :=
  unterminated_quote_discards_remainder ⟨[[97]], false, [34, 98], []⟩ (by decide) (by decide)

/-- Claim C1 (code bug): the final record sequence is not invariant under
chunk boundaries. The stream "h\nab\n" as a single chunk yields the one
record (h, ab), but chunked as "h\n" / "a" / "b\n" the LF-free middle buffer
is flushed early as a complete line, yielding the two records (h, a) and
(h, b). -/
theorem chunk_partition_changes_records :
    (parseAndLogCsv [[104, 10, 97, 98, 10]]).records = [[([104], [97, 98])]] ∧
    (parseAndLogCsv [[104, 10], [97], [98, 10]]).records
      = [[([104], [97])], [([104], [98])]] ∧
    ¬ (parseAndLogCsv [[104, 10], [97], [98, 10]]).records
        = (parseAndLogCsv [[104, 10, 97, 98, 10]]).records := by decide

/-- Claim C2 (code bug): after consuming the chunks "h\n" and "a" the driver
has emitted a record covering the byte a, which lies beyond the last
non-quoted terminator of the consumed stream, and carries an empty
remainder — so the emitted lines do not cover exactly the stream prefix up
to the last non-quoted line terminator. -/
theorem remainder_invariant_broken :
    (List.foldl driverStep initDriver [[104, 10], [97]]).remainder = [] ∧
    (List.foldl driverStep initDriver [[104, 10], [97]]).records = [[([104], [97])]] := by decide

/-- Claim C4 (code bug): the row a,"b\nc" containing a quoted field with an
embedded newline yields one record when the stream arrives as one chunk, but
two records when the chunk boundary cuts the row before the quoted field
(the LF-free prefix a, is flushed early as its own line). -/
theorem quoted_newline_row_split_by_chunks :
    (parseAndLogCsv [[104, 44, 105, 10, 97, 44, 34, 98, 10, 99, 34, 10]]).records
      = [[([104], [97]), ([105], [98, 10, 99])]] ∧
    (parseAndLogCsv [[104, 44, 105, 10], [97, 44], [34, 98, 10, 99, 34, 10]]).records
      = [[([104], [97]), ([105], [])], [([104], [98, 10, 99])]] := by decide

end Csv
